import Mathlib

/-!
Verification development for the passgen encrypted password store.

The definitions below are a shallow embedding of the Go sources:

* `internal/infrastructure/storage` (`EncryptedStorage` and its methods),
* `internal/infrastructure/git` (`GitService`, modelled by an outcome record),
* `internal/infrastructure/config_manager.go` (`ConfigManager.SetDefaultStore`),
* `internal/infrastructure/repositories/encrypted_password_store_repository.go`
  (`GetPasswordMetadata`),
* `internal/domain/entities` (the data model).

Modelling conventions:

* `time.Time` values and `time.Duration` values are nanosecond counts (`Int`),
  matching the representation underlying the Go types.
* The ambient filesystem of a store directory is a finite association list from
  filename to file content, and the git history is the list of commit messages;
  both live in the `EncryptedStorage` state.  `os.ReadDir` returns entries
  sorted by filename, which is modelled by sorting the association list with a
  bytewise lexicographic order (UTF-8 byte order agrees with code-point order).
* GPG encryption and JSON serialization are external collaborators that the
  claims assume to be mutually inverse, so an encrypted file either decrypts
  back to the stored record (`FileContent.plain`) or fails to decrypt
  (`FileContent.undecryptable`).  Collaborator calls that the relevant code
  paths make after validation (encrypt, write, `git add`, `git commit`) are
  modelled on their success path; every earlier error return is modelled
  explicitly.
* Go errors built with `fmt.Errorf` are modelled by inductive error values
  carrying the same data as the corresponding format arguments.
-/

namespace Passgen

/-! ## Names and filenames -/

/-- Bytewise lexicographic order on character lists, the order in which
`os.ReadDir` reports directory entries. -/
def lexLe : List Char → List Char → Bool
  | [], _ => true
  | _ :: _, [] => false
  | a :: as, b :: bs => if a = b then lexLe as bs else decide (a < b)

/-- The unsafe characters replaced by `sanitizeFileName`
(source: `sanitizeFileName`, storage part). -/
def unsafeChars : List Char :=
  ['/', '\\', ':', '*', '?', '\"', '<', '>', '|', ' ']

/-- `sanitizeFileName` converts a password name to a safe filename by replacing
each unsafe character with an underscore, one `strings.ReplaceAll` pass per
character (source: `EncryptedStorage.sanitizeFileName`). -/
def sanitizeFileName (name : String) : String :=
  String.mk (unsafeChars.foldl (fun acc c => acc.map fun x => if x = c then '_' else x) name.data)

/-- `unsanitizeFileName` converts a filename back to the original name by
replacing every underscore with a space
(source: `EncryptedStorage.unsanitizeFileName`). -/
def unsanitizeFileName (filename : String) : String :=
  String.mk (filename.data.map fun x => if x = '_' then ' ' else x)

/-- Strips a trailing `".gpg"` from a filename, returning `none` when the
filename does not end in `".gpg"` (models `strings.HasSuffix` followed by
`strings.TrimSuffix` in `ListPasswords`). -/
def stripGpgSuffix (filename : String) : Option String :=
  match filename.data.reverse with
  | 'g' :: 'p' :: 'g' :: '.' :: rest => some (String.mk rest.reverse)
  | _ => none

/-! ## Time -/

/-- Nanoseconds per day. -/
def nsPerDay : Int := 86400000000000

/-- `int(d.Hours() / 24)` for a `time.Duration` of `d` nanoseconds:
truncated (toward zero) division by one day. -/
def durationDays (d : Int) : Int := Int.tdiv d nsPerDay

/-! ## Data model (`internal/domain/entities`) -/

/-- `entities.PasswordProfile`. -/
structure PasswordProfile where
  length : Int
  includeUpper : Bool
  includeLower : Bool
  includeNumbers : Bool
  includeSymbols : Bool
  customRules : String
  deriving DecidableEq, Repr

/-- `entities.AutoRotationConfig`. -/
structure AutoRotationConfig where
  enabled : Bool
  intervalDays : Int
  nextRotationAt : Int
  notifyDaysBefore : Int
  autoGenerate : Bool
  passwordProfile : Option PasswordProfile
  deriving DecidableEq, Repr

/-- `entities.RotationRecord`. -/
structure RotationRecord where
  rotatedAt : Int
  previousHash : String
  reason : String
  generatedBy : String
  deriving DecidableEq, Repr

/-- `entities.PasswordEntry`.  The free-form metadata map is an association
list. -/
structure PasswordEntry where
  service : String
  username : String
  password : String
  url : String
  notes : String
  metadata : List (String × String)
  createdAt : Int
  updatedAt : Int
  generatedBy : String
  autoRotation : Option AutoRotationConfig
  rotationHistory : List RotationRecord
  deriving DecidableEq, Repr

/-- `storage.StoredPasswordEntry`, the stored format of a password entry. -/
structure StoredPasswordEntry where
  service : String
  username : String
  password : String
  url : String
  notes : String
  metadata : List (String × String)
  createdAt : Int
  updatedAt : Int
  generatedBy : String
  autoRotation : Option AutoRotationConfig
  rotationHistory : List RotationRecord
  deriving DecidableEq, Repr

/-- `entities.AutoRotationInfo`. -/
structure AutoRotationInfo where
  enabled : Bool
  intervalDays : Int
  nextRotation : Int
  daysUntilNext : Int
  deriving DecidableEq, Repr

/-- `entities.PasswordMetadata`. -/
structure PasswordMetadata where
  service : String
  username : String
  url : String
  notes : String
  createdAt : Int
  updatedAt : Int
  autoRotation : Option AutoRotationInfo
  strengthInfo : String
  deriving DecidableEq, Repr

/-- The field-by-field copy from `entities.PasswordEntry` into
`storage.StoredPasswordEntry` performed by `SavePassword`. -/
def toStored (e : PasswordEntry) : StoredPasswordEntry :=
  { service := e.service, username := e.username, password := e.password,
    url := e.url, notes := e.notes, metadata := e.metadata,
    createdAt := e.createdAt, updatedAt := e.updatedAt,
    generatedBy := e.generatedBy, autoRotation := e.autoRotation,
    rotationHistory := e.rotationHistory }

/-- The field-by-field copy from `storage.StoredPasswordEntry` back into
`entities.PasswordEntry` performed by `LoadPassword`. -/
def toEntry (s : StoredPasswordEntry) : PasswordEntry :=
  { service := s.service, username := s.username, password := s.password,
    url := s.url, notes := s.notes, metadata := s.metadata,
    createdAt := s.createdAt, updatedAt := s.updatedAt,
    generatedBy := s.generatedBy, autoRotation := s.autoRotation,
    rotationHistory := s.rotationHistory }

/-! ## Filesystem model -/

/-- Content of one on-disk `.gpg` file: either ciphertext that decrypts back to
the stored record it was produced from, or ciphertext that fails to decrypt. -/
inductive FileContent where
  | plain (entry : StoredPasswordEntry)
  | undecryptable
  deriving DecidableEq, Repr

/-- Directory lookup by filename (first match). -/
def findFile : List (String × FileContent) → String → Option FileContent
  | [], _ => none
  | (m, c) :: rest, n => if m = n then some c else findFile rest n

/-- `os.WriteFile`: overwrite the file if present, create it otherwise. -/
def setFile : List (String × FileContent) → String → FileContent → List (String × FileContent)
  | [], n, c => [(n, c)]
  | (m, d) :: rest, n, c => if m = n then (n, c) :: rest else (m, d) :: setFile rest n c

/-- `os.Remove`: drop the named file. -/
def removeFile (files : List (String × FileContent)) (n : String) : List (String × FileContent) :=
  files.filter fun p => p.1 ≠ n

/-- The ordering by which `os.ReadDir` reports directory entries. -/
def fileLe (a b : String × FileContent) : Prop := lexLe a.1.data b.1.data = true

instance : DecidableRel fileLe := by
  intro a b
  unfold fileLe
  infer_instance

/-- `os.ReadDir`: the directory entries sorted by filename, whatever order the
underlying directory stores them in. -/
def readDirSorted (files : List (String × FileContent)) : List (String × FileContent) :=
  List.insertionSort fileLe files

/-! ## Storage errors -/

/-- Errors returned by `EncryptedStorage` methods; each constructor carries the
data of the corresponding `fmt.Errorf` message. -/
inductive StorageError where
  | notInitialized
  | notFound (name : String)
  | decryptFailed (name : String)
  deriving DecidableEq, Repr

/-! ## `EncryptedStorage` state -/

/-- State acted on by the `storage.EncryptedStorage` methods: the store
directory contents, the git history (commit messages), the configured git
remotes and the `initialized` flag. -/
structure EncryptedStorage where
  files : List (String × FileContent)
  commits : List String
  remotes : List (String × String)
  initialized : Bool
  deriving DecidableEq, Repr

/-- The on-disk filename for a service: `sanitizeFileName(name) + ".gpg"`. -/
def fileNameFor (service : String) : String :=
  sanitizeFileName service ++ ".gpg"

/-- `EncryptedStorage.SavePassword`: guard on `initialized`, copy the entry
into the stored format, serialize, encrypt, write the file, `git add` it and
commit `"Add password entry: <service>"`.  Returns the result together with
the state after the call. -/
def EncryptedStorage.SavePassword (es : EncryptedStorage) (entry : PasswordEntry) :
    Except StorageError Unit × EncryptedStorage :=
  if es.initialized = false then
    (.error .notInitialized, es)
  else
    let fileName := fileNameFor entry.service
    let es1 := { es with files := setFile es.files fileName (.plain (toStored entry)) }
    (.ok (), { es1 with commits := es1.commits ++ ["Add password entry: " ++ entry.service] })

/-- `EncryptedStorage.LoadPassword`: guard on `initialized`, read the file at
`sanitizeFileName(name) + ".gpg"`, decrypt, parse, and copy back into a
`PasswordEntry`. -/
def EncryptedStorage.LoadPassword (es : EncryptedStorage) (name : String) :
    Except StorageError PasswordEntry :=
  if es.initialized = false then
    .error .notInitialized
  else
    match findFile es.files (fileNameFor name) with
    | none => .error (.notFound name)
    | some .undecryptable => .error (.decryptFailed name)
    | some (.plain stored) => .ok (toEntry stored)

/-- The `PasswordMetadata` built for one loaded entry inside
`ListPasswords`: rotation info is attached only when auto-rotation is present
and enabled, and `DaysUntilNext` is `int(time.Until(NextRotationAt).Hours()/24)`
at the current time `now`. -/
def metadataAtRead (pe : PasswordEntry) (now : Int) : PasswordMetadata :=
  { service := pe.service, username := pe.username, url := pe.url,
    notes := pe.notes, createdAt := pe.createdAt, updatedAt := pe.updatedAt,
    strengthInfo := "",
    autoRotation :=
      match pe.autoRotation with
      | some ar =>
        if ar.enabled then
          some { enabled := true, intervalDays := ar.intervalDays,
                 nextRotation := ar.nextRotationAt,
                 daysUntilNext := durationDays (ar.nextRotationAt - now) }
        else none
      | none => none }

/-- The body of the `ListPasswords` loop for one directory entry: skip names
not ending in `".gpg"`, recover the service name with `unsanitizeFileName`,
load it through `LoadPassword`, skip it if that fails, and otherwise build its
metadata. -/
def processFile (es : EncryptedStorage) (now : Int) (file : String × FileContent) :
    Option PasswordMetadata :=
  match stripGpgSuffix file.1 with
  | none => none
  | some stem =>
    match es.LoadPassword (unsanitizeFileName stem) with
    | .error _ => none
    | .ok pe => some (metadataAtRead pe now)

/-- `passwords = append(passwords, metadata)` when the loop body produced a
metadata record, `continue` (leave the accumulator alone) when it skipped. -/
def appendIfSome (acc : List PasswordMetadata) (m? : Option PasswordMetadata) :
    List PasswordMetadata :=
  match m? with
  | none => acc
  | some m => acc ++ [m]

/-- `EncryptedStorage.ListPasswords`: guard on `initialized`, read the
directory (sorted by filename), and run the loop, appending the metadata of
each entry that loads. -/
def EncryptedStorage.ListPasswords (es : EncryptedStorage) (now : Int) :
    Except StorageError (List PasswordMetadata) :=
  if es.initialized = false then
    .error .notInitialized
  else
    .ok ((readDirSorted es.files).foldl
      (fun acc file => appendIfSome acc (processFile es now file)) [])

/-- `EncryptedStorage.DeletePassword`: guard on `initialized`, stat the file
and return a not-found error if it does not exist; otherwise remove it and
commit `"Remove password entry: <name>"`.  Returns the result together with
the state after the call. -/
def EncryptedStorage.DeletePassword (es : EncryptedStorage) (name : String) :
    Except StorageError Unit × EncryptedStorage :=
  if es.initialized = false then
    (.error .notInitialized, es)
  else
    let fileName := fileNameFor name
    match findFile es.files fileName with
    | none => (.error (.notFound name), es)
    | some _ =>
      let es1 := { es with files := removeFile es.files fileName }
      (.ok (), { es1 with commits := es1.commits ++ ["Remove password entry: " ++ name] })

/-- `EncryptedStorage.ConnectRemote`: guard on `initialized`, then
`git remote add`. -/
def EncryptedStorage.ConnectRemote (es : EncryptedStorage) (remoteName remoteURL : String) :
    Except StorageError Unit × EncryptedStorage :=
  if es.initialized = false then
    (.error .notInitialized, es)
  else
    (.ok (), { es with remotes := es.remotes ++ [(remoteName, remoteURL)] })

/-- `git.RepositoryInfo`. -/
structure RepositoryInfo where
  path : String
  remoteURL : String
  branch : String
  lastCommit : String
  status : String
  deriving DecidableEq, Repr

/-- `EncryptedStorage.GetStoreInfo`: guard on `initialized`, then return the
repository status reported by the git collaborator. -/
def EncryptedStorage.GetStoreInfo (es : EncryptedStorage) (gitStatus : RepositoryInfo) :
    Except StorageError RepositoryInfo :=
  if es.initialized = false then
    .error .notInitialized
  else
    .ok gitStatus

/-! ## Version control sync (`EncryptedStorage.Sync` over `git.GitService`) -/

/-- Outcomes of the git collaborator calls that `Sync` makes, in the order the
code makes them: `Pull`, `GetConflicts`, `HasChanges`, `Push`.  Each field is
the result the corresponding `GitService` method would return. -/
structure GitBehavior where
  pullOk : Bool
  conflictsResult : Except String (List String)
  hasChangesResult : Except String Bool
  pushOk : Bool
  deriving Repr

/-- The git commands `Sync` can issue through `GitService`.  `merge` and
`resolve` are listed so that their absence from the trace of `Sync` is a
statement, not a typing accident: `GitService` exposes `ResolveConflict`
(`git add` on a conflicted path) and git itself can merge, but `Sync` must
never invoke either. -/
inductive GitAction where
  | pull
  | getConflicts
  | hasChanges
  | push
  | merge
  | resolve
  deriving DecidableEq, Repr

/-- Errors returned by `Sync`; each constructor carries the data of the
corresponding `fmt.Errorf` message.  `conflictsDetected` carries the full
conflict list, matching
`fmt.Errorf("merge conflicts detected in files: %v", conflicts)`. -/
inductive SyncError where
  | notInitialized
  | pullFailed
  | conflictCheckFailed (msg : String)
  | conflictsDetected (paths : List String)
  | changesCheckFailed (msg : String)
  | pushFailed
  deriving DecidableEq, Repr

/-- `EncryptedStorage.Sync`: guard on `initialized`; pull; check for
conflicts and fail (naming every conflicted path) if any remain; push only
when there are local changes.  Returns the result (`Bool`: whether a push was
performed) together with the trace of git commands issued. -/
def EncryptedStorage.Sync (es : EncryptedStorage) (g : GitBehavior) :
    Except SyncError Bool × List GitAction :=
  if es.initialized = false then
    (.error .notInitialized, [])
  else if g.pullOk = false then
    (.error .pullFailed, [.pull])
  else
    match g.conflictsResult with
    | .error msg => (.error (.conflictCheckFailed msg), [.pull, .getConflicts])
    | .ok conflicts =>
      if conflicts.length > 0 then
        (.error (.conflictsDetected conflicts), [.pull, .getConflicts])
      else
        match g.hasChangesResult with
        | .error msg => (.error (.changesCheckFailed msg), [.pull, .getConflicts, .hasChanges])
        | .ok true =>
          if g.pushOk then
            (.ok true, [.pull, .getConflicts, .hasChanges, .push])
          else
            (.error .pushFailed, [.pull, .getConflicts, .hasChanges, .push])
        | .ok false => (.ok false, [.pull, .getConflicts, .hasChanges])

/-! ## Store registry (`config_manager.go` and `entities/password_store.go`) -/

/-- `entities.PasswordStore`. -/
structure PasswordStore where
  name : String
  gitURL : String
  localPath : String
  gpgKeyID : String
  isDefault : Bool
  createdAt : Int
  lastSyncAt : Option Int
  deriving DecidableEq, Repr

/-- `entities.DefaultRotationConfig`. -/
structure DefaultRotationConfig where
  intervalDays : Int
  notifyDaysBefore : Int
  autoGenerate : Bool
  passwordProfile : Option PasswordProfile
  deriving DecidableEq, Repr

/-- `entities.NotificationConfig`. -/
structure NotificationConfig where
  enabled : Bool
  email : String
  webhook : String
  deriving DecidableEq, Repr

/-- `entities.StoreConfig`: the store registry.  The Go `map[string]PasswordStore`
is an association list whose keys are unique. -/
structure StoreConfig where
  defaultStore : String
  stores : List (String × PasswordStore)
  configPath : String
  defaultRotation : Option DefaultRotationConfig
  notifications : Option NotificationConfig
  deriving DecidableEq, Repr

/-- Errors returned by `ConfigManager` methods. -/
inductive ConfigError where
  | unknownStore (name : String)
  deriving DecidableEq, Repr

/-- Registry lookup (`config.Stores[storeName]`). -/
def lookupStore : List (String × PasswordStore) → String → Option PasswordStore
  | [], _ => none
  | (m, s) :: rest, n => if m = n then some s else lookupStore rest n

/-- `ConfigManager.SetDefaultStore` (pure core, between `LoadConfig` and
`SaveConfig`): fail when the named store is absent; otherwise set
`DefaultStore` and set every registered store flag to
`IsDefault = (name == storeName)`. -/
def ConfigManager.SetDefaultStore (cfg : StoreConfig) (storeName : String) :
    Except ConfigError StoreConfig :=
  match lookupStore cfg.stores storeName with
  | none => .error (.unknownStore storeName)
  | some _ =>
    .ok { cfg with
          defaultStore := storeName,
          stores := cfg.stores.map fun p => (p.1, { p.2 with isDefault := p.1 == storeName }) }

/-! ## Repository metadata projection
(`encrypted_password_store_repository.go`) -/

/-- `EncryptedPasswordStoreRepository.GetPasswordMetadata` for one registered
storage: load the full entry and extract the metadata.  Note the source
computes `DaysUntilNext` as
`int(entry.AutoRotation.NextRotationAt.Sub(entry.CreatedAt).Hours() / 24)`,
a duration measured from the entry creation time, not from the current time;
accordingly this function does not take a clock at all. -/
def EncryptedPasswordStoreRepository.GetPasswordMetadata
    (es : EncryptedStorage) (service : String) :
    Except StorageError PasswordMetadata :=
  match es.LoadPassword service with
  | .error e => .error e
  | .ok entry =>
    .ok { service := entry.service, username := entry.username, url := entry.url,
          notes := entry.notes, createdAt := entry.createdAt,
          updatedAt := entry.updatedAt, strengthInfo := "",
          autoRotation :=
            match entry.autoRotation with
            | some ar =>
              if ar.enabled then
                some { enabled := true, intervalDays := ar.intervalDays,
                       nextRotation := ar.nextRotationAt,
                       daysUntilNext := durationDays (ar.nextRotationAt - entry.createdAt) }
              else none
            | none => none }

/-! ## Rotation scheduler -/

/-- `entities.RotationStatus`. -/
structure RotationStatus where
  service : String
  nextRotation : Int
  daysUntilNext : Int
  status : String
  intervalDays : Int
  deriving DecidableEq, Repr

/-- Modelled from the spec: the rotation-status computation is absent from the
implementation (`EncryptedPasswordStoreRepository.GetRotationStatus` is an
unimplemented stub that only returns an error), so `compute_status` follows
the words of spec sections 4.5 and 3: no status when rotation is disabled,
otherwise `days_until_next = next_rotation_at - now` in days and the bucket
table `< 0` overdue, `0..2` critical, `3..7` soon, `> 7` scheduled. -/
def computeStatus (service : String) (cfg : AutoRotationConfig) (now : Int) :
    Option RotationStatus :=
  if cfg.enabled = false then
    none
  else
    let days := durationDays (cfg.nextRotationAt - now)
    some { service := service, nextRotation := cfg.nextRotationAt,
           daysUntilNext := days,
           status :=
             if days < 0 then "overdue"
             else if days ≤ 2 then "critical"
             else if days ≤ 7 then "soon"
             else "scheduled",
           intervalDays := cfg.intervalDays }

/-! ## Helper lemmas -/

theorem findFile_setFile_self (files : List (String × FileContent)) (n : String) (c : FileContent) :
    findFile (setFile files n c) n = some c := by
  induction files with
  | nil => simp [setFile, findFile]
  | cons p rest ih =>
    obtain ⟨m, d⟩ := p
    by_cases hmn : m = n
    · simp [setFile, hmn, findFile]
    · simp [setFile, hmn, findFile, ih]

theorem toEntry_toStored (e : PasswordEntry) : toEntry (toStored e) = e := rfl

theorem loadPassword_ok_inv (es : EncryptedStorage) (name : String) (pe : PasswordEntry)
    (h : es.LoadPassword name = .ok pe) :
    ∃ stored, findFile es.files (fileNameFor name) = some (.plain stored) ∧ pe = toEntry stored := by
  unfold EncryptedStorage.LoadPassword at h
  by_cases hi : es.initialized = false
  · simp [hi] at h
  · simp [hi] at h
    cases hf : findFile es.files (fileNameFor name) with
    | none => rw [hf] at h; simp at h
    | some c =>
      cases c with
      | undecryptable => rw [hf] at h; simp at h
      | plain stored =>
        rw [hf] at h
        simp at h
        exact ⟨stored, rfl, h.symm⟩

theorem foldl_appendIfSome {α : Type} (f : α → Option PasswordMetadata) (l : List α)
    (acc : List PasswordMetadata) :
    l.foldl (fun acc x => appendIfSome acc (f x)) acc = acc ++ l.filterMap f := by
  induction l generalizing acc with
  | nil => simp
  | cons x xs ih =>
    cases hfx : f x with
    | none =>
      rw [List.foldl_cons, hfx]
      simp only [List.filterMap_cons, hfx]
      exact ih acc
    | some y =>
      rw [List.foldl_cons, hfx]
      simp only [List.filterMap_cons, hfx]
      have h2 := ih (acc ++ [y])
      rw [List.append_assoc, List.singleton_append] at h2
      exact h2

theorem processFile_some_inv (es : EncryptedStorage) (now : Int)
    (file : String × FileContent) (m : PasswordMetadata)
    (h : processFile es now file = some m) :
    ∃ stem pe, stripGpgSuffix file.1 = some stem ∧
      es.LoadPassword (unsanitizeFileName stem) = .ok pe ∧ m = metadataAtRead pe now := by
  unfold processFile at h
  cases hstem : stripGpgSuffix file.1 with
  | none => rw [hstem] at h; simp at h
  | some stem =>
    rw [hstem] at h
    dsimp only at h
    cases hload : es.LoadPassword (unsanitizeFileName stem) with
    | error e => rw [hload] at h; simp at h
    | ok pe =>
      rw [hload] at h
      simp only [Option.some.injEq] at h
      exact ⟨stem, pe, rfl, hload, h.symm⟩

/-! ## C1: save/load round trip -/

/-- C1.  For every initialized store and every password entry `e`,
`SavePassword e` succeeds and `LoadPassword e.service` on the resulting store
returns an entry equal to `e` in every field (service, username, password,
url, notes, metadata, timestamps, generated-by, auto-rotation configuration
and rotation history all round-trip unchanged). -/
theorem savePassword_loadPassword_roundtrip (es : EncryptedStorage) (e : PasswordEntry)
    (h : es.initialized = true) :
    (es.SavePassword e).1 = .ok () ∧
    ((es.SavePassword e).2.LoadPassword e.service) = .ok e := by
  unfold EncryptedStorage.SavePassword
  simp only [h]
  refine ⟨by simp, ?_⟩
  unfold EncryptedStorage.LoadPassword
  simp [h, findFile_setFile_self, toEntry_toStored]

def esW1 : EncryptedStorage := ⟨[], [], [], true⟩

def entryW1 : PasswordEntry :=
  { service := "git hub", username := "alice", password := "s3cret", url := "https://github.com",
    notes := "work", metadata := [("team", "core")], createdAt := 100, updatedAt := 200,
    generatedBy := "passgen v1.1.0",
    autoRotation := some ⟨true, 90, 300, 7, true, none⟩,
    rotationHistory := [⟨50, "digest", "manual", "passgen"⟩] }

theorem savePassword_loadPassword_roundtrip_witness :
    esW1.initialized = true ∧
    ((esW1.SavePassword entryW1).1 = .ok () ∧
      ((esW1.SavePassword entryW1).2.LoadPassword entryW1.service) = .ok entryW1) :=
  ⟨rfl, savePassword_loadPassword_roundtrip esW1 entryW1 rfl⟩

/-! ## C7: deleting a nonexistent service -/

/-- C7.  For every initialized store and every service with no stored entry
(no file at its sanitized filename), `DeletePassword` returns the not-found
error and returns with the state it started from: the directory is unchanged,
no file is removed, and no commit is added. -/
theorem deletePassword_missing_unchanged (es : EncryptedStorage) (name : String)
    (h : es.initialized = true)
    (hmiss : findFile es.files (fileNameFor name) = none) :
    es.DeletePassword name = (.error (.notFound name), es) := by
  unfold EncryptedStorage.DeletePassword
  simp [h, hmiss]

def esW7 : EncryptedStorage :=
  ⟨[("github.gpg", .plain (toStored entryW1))], ["Initial commit"], [], true⟩

theorem deletePassword_missing_unchanged_witness :
    (esW7.initialized = true ∧ findFile esW7.files (fileNameFor "absent") = none) ∧
    esW7.DeletePassword "absent" = (.error (.notFound "absent"), esW7) :=
  ⟨⟨rfl, by decide⟩, deletePassword_missing_unchanged esW7 "absent" rfl (by decide)⟩

/-! ## C9: filename sanitization is lossy -/

/-- C9.  Sanitization is lossy and un-sanitization is not a true inverse:
there is a service name (one containing an underscore) that does not survive
the round trip, and two distinct service names that sanitize to the same
filename. -/
theorem sanitizeFileName_lossy :
    (∃ s : String, unsanitizeFileName (sanitizeFileName s) ≠ s) ∧
    (∃ s₁ s₂ : String, s₁ ≠ s₂ ∧ sanitizeFileName s₁ = sanitizeFileName s₂) :=
  ⟨⟨"a_b", by decide⟩, ⟨"a b", "a:b", by decide, by decide⟩⟩

/-! ## C10: operations on an uninitialized store -/

/-- C10.  On a store on which `InitializeStore` has not succeeded
(`initialized` is false), every other operation returns the
store-not-initialized error and performs no file, git or encryption action:
the state is returned untouched and the `Sync` trace of git commands is
empty. -/
theorem uninitialized_ops_fail (es : EncryptedStorage) (e : PasswordEntry)
    (name : String) (now : Int) (g : GitBehavior) (rn ru : String) (info : RepositoryInfo)
    (h : es.initialized = false) :
    es.SavePassword e = (.error .notInitialized, es) ∧
    es.LoadPassword name = .error .notInitialized ∧
    es.ListPasswords now = .error .notInitialized ∧
    es.DeletePassword name = (.error .notInitialized, es) ∧
    es.Sync g = (.error .notInitialized, []) ∧
    es.ConnectRemote rn ru = (.error .notInitialized, es) ∧
    es.GetStoreInfo info = .error .notInitialized := by
  unfold EncryptedStorage.SavePassword EncryptedStorage.LoadPassword
    EncryptedStorage.ListPasswords EncryptedStorage.DeletePassword
    EncryptedStorage.Sync EncryptedStorage.ConnectRemote EncryptedStorage.GetStoreInfo
  simp [h]

def esW10 : EncryptedStorage := ⟨[("github.gpg", .plain (toStored entryW1))], [], [], false⟩

def gW10 : GitBehavior := ⟨true, .ok [], .ok false, true⟩

theorem uninitialized_ops_fail_witness :
    esW10.initialized = false ∧
    (esW10.SavePassword entryW1 = (.error .notInitialized, esW10) ∧
      esW10.LoadPassword "github" = .error .notInitialized ∧
      esW10.ListPasswords 0 = .error .notInitialized ∧
      esW10.DeletePassword "github" = (.error .notInitialized, esW10) ∧
      esW10.Sync gW10 = (.error .notInitialized, []) ∧
      esW10.ConnectRemote "origin" "git@example.com:store.git" = (.error .notInitialized, esW10) ∧
      esW10.GetStoreInfo ⟨"p", "u", "main", "c", "clean"⟩ = .error .notInitialized) :=
  ⟨rfl, uninitialized_ops_fail esW10 entryW1 "github" 0 gW10 "origin"
    "git@example.com:store.git" ⟨"p", "u", "main", "c", "clean"⟩ rfl⟩

/-! ## C2: sync pulls, detects conflicts, never merges -/

/-- C2.  For every initialized store, `Sync` issues a pull first; it pushes
only if the pull succeeded and the post-pull conflict check came back empty;
it never issues a merge or a conflict resolution; and when any divergence
remains after the pull the result is the sync-conflict error carrying every
affected path, with no automatic resolution (no further git command is
issued). -/
theorem sync_pull_then_push_no_merge (es : EncryptedStorage) (g : GitBehavior)
    (h : es.initialized = true) :
    ((es.Sync g).2.head? = some .pull) ∧
    (GitAction.push ∈ (es.Sync g).2 → g.pullOk = true ∧ g.conflictsResult = .ok []) ∧
    (GitAction.merge ∉ (es.Sync g).2 ∧ GitAction.resolve ∉ (es.Sync g).2) ∧
    (∀ conflicts, g.pullOk = true → g.conflictsResult = .ok conflicts → conflicts ≠ [] →
      (es.Sync g).1 = .error (.conflictsDetected conflicts) ∧
      (es.Sync g).2 = [.pull, .getConflicts]) := by
  obtain ⟨pullOk, conflictsResult, hasChangesResult, pushOk⟩ := g
  unfold EncryptedStorage.Sync
  simp only [h]
  cases pullOk with
  | false => simp
  | true =>
    cases conflictsResult with
    | error msg => simp
    | ok conflicts =>
      cases conflicts with
      | nil =>
        cases hasChangesResult with
        | error msg => simp
        | ok b =>
          cases b with
          | false => simp
          | true => cases pushOk <;> simp
      | cons c cs =>
        simp

def esW2 : EncryptedStorage := ⟨[("github.gpg", .plain (toStored entryW1))], [], [], true⟩

def gW2 : GitBehavior := ⟨true, .ok ["github.gpg", "db.gpg"], .ok true, true⟩

theorem sync_pull_then_push_no_merge_witness :
    esW2.initialized = true ∧
    (((esW2.Sync gW2).2.head? = some .pull) ∧
      (GitAction.push ∈ (esW2.Sync gW2).2 → gW2.pullOk = true ∧ gW2.conflictsResult = .ok []) ∧
      (GitAction.merge ∉ (esW2.Sync gW2).2 ∧ GitAction.resolve ∉ (esW2.Sync gW2).2) ∧
      (∀ conflicts, gW2.pullOk = true → gW2.conflictsResult = .ok conflicts → conflicts ≠ [] →
        (esW2.Sync gW2).1 = .error (.conflictsDetected conflicts) ∧
        (esW2.Sync gW2).2 = [.pull, .getConflicts])) :=
  ⟨rfl, sync_pull_then_push_no_merge esW2 gW2 rfl⟩

/-! ## C4: rotation status buckets -/

theorem durationDays_shift (now k : Int) : durationDays (now + k * nsPerDay - now) = k := by
  have hsub : now + k * nsPerDay - now = k * nsPerDay := by ring
  rw [hsub]
  unfold durationDays
  exact Int.mul_tdiv_cancel k (by norm_num [nsPerDay])

/-- C4.  For every rotation-enabled configuration with a 90-day interval, the
(spec-modelled) rotation-status computation classifies by days until the next
rotation: two days overdue gives `overdue`, one day out gives `critical`, five
days gives `soon`, thirty days gives `scheduled`; with rotation disabled it
yields none. -/
theorem computeStatus_buckets (cfg : AutoRotationConfig) (service : String) (now : Int)
    (_hint : cfg.intervalDays = 90) :
    (cfg.enabled = false → computeStatus service cfg now = none) ∧
    (cfg.enabled = true →
      (computeStatus service { cfg with nextRotationAt := now + (-2) * nsPerDay } now).map
          RotationStatus.status = some "overdue" ∧
      (computeStatus service { cfg with nextRotationAt := now + 1 * nsPerDay } now).map
          RotationStatus.status = some "critical" ∧
      (computeStatus service { cfg with nextRotationAt := now + 5 * nsPerDay } now).map
          RotationStatus.status = some "soon" ∧
      (computeStatus service { cfg with nextRotationAt := now + 30 * nsPerDay } now).map
          RotationStatus.status = some "scheduled") := by
  constructor
  · intro hdis
    simp [computeStatus, hdis]
  · intro hen
    refine ⟨?_, ?_, ?_, ?_⟩ <;> simp [computeStatus, hen] <;> decide

def cfgW4 : AutoRotationConfig := ⟨true, 90, 0, 7, true, none⟩

theorem computeStatus_buckets_witness :
    cfgW4.intervalDays = 90 ∧
    ((cfgW4.enabled = false → computeStatus "db" cfgW4 1000 = none) ∧
      (cfgW4.enabled = true →
        (computeStatus "db" { cfgW4 with nextRotationAt := 1000 + (-2) * nsPerDay } 1000).map
            RotationStatus.status = some "overdue" ∧
        (computeStatus "db" { cfgW4 with nextRotationAt := 1000 + 1 * nsPerDay } 1000).map
            RotationStatus.status = some "critical" ∧
        (computeStatus "db" { cfgW4 with nextRotationAt := 1000 + 5 * nsPerDay } 1000).map
            RotationStatus.status = some "soon" ∧
        (computeStatus "db" { cfgW4 with nextRotationAt := 1000 + 30 * nsPerDay } 1000).map
            RotationStatus.status = some "scheduled")) :=
  ⟨rfl, computeStatus_buckets cfgW4 "db" 1000 rfl⟩

/-! ## C8: days-until-next at read time -/

def entryC8 : PasswordEntry :=
  { service := "db", username := "svc", password := "pw", url := "", notes := "",
    metadata := [], createdAt := 0, updatedAt := 0, generatedBy := "",
    autoRotation := some ⟨true, 90, 10 * nsPerDay, 7, true, none⟩,
    rotationHistory := [] }

def esC8 : EncryptedStorage := ⟨[("db.gpg", .plain (toStored entryC8))], [], [], true⟩

def mgC8 : PasswordMetadata :=
  { service := "db", username := "svc", url := "", notes := "", createdAt := 0,
    updatedAt := 0, strengthInfo := "",
    autoRotation := some ⟨true, 90, 10 * nsPerDay, 10⟩ }

def mlC8 : PasswordMetadata :=
  { service := "db", username := "svc", url := "", notes := "", createdAt := 0,
    updatedAt := 0, strengthInfo := "",
    autoRotation := some ⟨true, 90, 10 * nsPerDay, 5⟩ }

/-- C8.  The code evaluated at a store holding one rotation-enabled entry
(created at time 0, next rotation at day 10) read at day 5:
`GetPasswordMetadata` reports `DaysUntilNext = 10`, the span from the entry
creation time instead of from the current time, while `ListPasswords` at the
same instant reports the read-time value 5.  The two projections disagree, so
days-until-next is not computed at read time in every operation producing
`PasswordMetadata`. -/
theorem getPasswordMetadata_ignores_clock :
    EncryptedPasswordStoreRepository.GetPasswordMetadata esC8 "db" = .ok mgC8 ∧
    esC8.ListPasswords (5 * nsPerDay) = .ok [mlC8] ∧
    mgC8.autoRotation.map AutoRotationInfo.daysUntilNext = some 10 ∧
    mlC8.autoRotation.map AutoRotationInfo.daysUntilNext = some 5 ∧
    durationDays (10 * nsPerDay - 5 * nsPerDay) = 5 :=
  ⟨rfl, rfl, by decide, by decide, by decide⟩

/-! ## C3: SetDefaultStore leaves exactly one default -/

theorem filter_key_eq_nil (stores : List (String × PasswordStore)) (name : String)
    (habs : name ∉ stores.map Prod.fst) :
    stores.filter (fun p => p.1 == name) = [] := by
  induction stores with
  | nil => rfl
  | cons p rest ih =>
    simp only [List.map_cons, List.mem_cons] at habs
    push_neg at habs
    have hne : (p.1 == name) = false := by
      simp only [beq_eq_false_iff_ne, ne_eq]
      exact fun h => habs.1 h.symm
    simp [List.filter, hne, ih habs.2]

theorem filter_key_eq_singleton (stores : List (String × PasswordStore)) (name : String)
    (s : PasswordStore) (hkeys : (stores.map Prod.fst).Nodup)
    (hfound : lookupStore stores name = some s) :
    (stores.filter (fun p => p.1 == name)).map Prod.fst = [name] := by
  induction stores with
  | nil => simp [lookupStore] at hfound
  | cons p rest ih =>
    simp only [List.map_cons, List.nodup_cons] at hkeys
    by_cases hpn : p.1 = name
    · have hb : (p.1 == name) = true := by simp [hpn]
      have habs : name ∉ rest.map Prod.fst := hpn ▸ hkeys.1
      simp [List.filter, hb, filter_key_eq_nil rest name habs, hpn]
    · have hb : (p.1 == name) = false := by simp [hpn]
      unfold lookupStore at hfound
      simp [hpn] at hfound
      simp [List.filter, hb, ih hkeys.2 hfound]

/-- C3.  For every starting registry and every name: `SetDefaultStore` fails
with the unknown-store error when the name is not registered, and otherwise
the resulting registry marks the named store — and only the named store — as
default (the filter on the default flag yields exactly the given name). -/
theorem setDefaultStore_exactly_one (cfg : StoreConfig) (name : String)
    (hkeys : (cfg.stores.map Prod.fst).Nodup) :
    (lookupStore cfg.stores name = none →
      ConfigManager.SetDefaultStore cfg name = .error (.unknownStore name)) ∧
    (∀ cfg', ConfigManager.SetDefaultStore cfg name = .ok cfg' →
      cfg'.defaultStore = name ∧
      (cfg'.stores.filter (fun p => p.2.isDefault)).map Prod.fst = [name]) := by
  constructor
  · intro habs
    unfold ConfigManager.SetDefaultStore
    rw [habs]
  · intro cfg' hok
    unfold ConfigManager.SetDefaultStore at hok
    cases hfound : lookupStore cfg.stores name with
    | none => rw [hfound] at hok; simp at hok
    | some s =>
      rw [hfound] at hok
      simp only [Except.ok.injEq] at hok
      subst hok
      refine ⟨rfl, ?_⟩
      simp only []
      rw [List.filter_map]
      have hcomp :
          ((fun p : String × PasswordStore => p.2.isDefault) ∘
            (fun p : String × PasswordStore => (p.1, { p.2 with isDefault := p.1 == name }))) =
          fun p : String × PasswordStore => p.1 == name := by
        funext p
        rfl
      rw [hcomp]
      rw [List.map_map]
      have hfst :
          (Prod.fst ∘ fun p : String × PasswordStore =>
            (p.1, { p.2 with isDefault := p.1 == name })) = Prod.fst := by
        funext p
        rfl
      rw [hfst]
      exact filter_key_eq_singleton cfg.stores name s hkeys hfound

def storeA : PasswordStore := ⟨"work", "git@example.com:w.git", "/s/work", "key1", true, 10, none⟩

def storeB : PasswordStore := ⟨"home", "git@example.com:h.git", "/s/home", "key2", false, 20, none⟩

def cfgW3 : StoreConfig :=
  { defaultStore := "work", stores := [("work", storeA), ("home", storeB)],
    configPath := "/home/u/.config/passgen/stores.yaml",
    defaultRotation := none, notifications := none }

theorem setDefaultStore_exactly_one_witness :
    (cfgW3.stores.map Prod.fst).Nodup ∧
    ((lookupStore cfgW3.stores "home" = none →
        ConfigManager.SetDefaultStore cfgW3 "home" = .error (.unknownStore "home")) ∧
      (∀ cfg', ConfigManager.SetDefaultStore cfgW3 "home" = .ok cfg' →
        cfg'.defaultStore = "home" ∧
        (cfg'.stores.filter (fun p => p.2.isDefault)).map Prod.fst = ["home"])) :=
  ⟨by decide, setDefaultStore_exactly_one cfgW3 "home" (by decide)⟩

/-! ## C6: a decrypt failure during listing -/

def goodEntryC6 : PasswordEntry :=
  { service := "good", username := "u", password := "pw", url := "", notes := "",
    metadata := [], createdAt := 0, updatedAt := 0, generatedBy := "",
    autoRotation := none, rotationHistory := [] }

def esC6 : EncryptedStorage :=
  ⟨[("bad.gpg", .undecryptable), ("good.gpg", .plain (toStored goodEntryC6))], [], [], true⟩

/-- C6 counterexample.  In a store holding an undecryptable entry `bad.gpg`
next to a decryptable one, `ListPasswords` succeeds and returns only the
decryptable entry: the result carries no error and no element referring to the
failed entry, so the failure is silently dropped rather than surfaced
per-entry. -/
theorem listPasswords_drops_undecryptable_silently :
    ("bad.gpg", FileContent.undecryptable) ∈ esC6.files ∧
    esC6.ListPasswords 0 = .ok [metadataAtRead goodEntryC6 0] ∧
    [metadataAtRead goodEntryC6 0].map PasswordMetadata.service = ["good"] :=
  ⟨by decide, rfl, by decide⟩

/-- C6 amended.  For every initialized store, `ListPasswords` never aborts
(it returns a result list whatever the directory holds), and an entry that
fails to decrypt is silently omitted: every element of the result arises from
a file that decrypted successfully, so the failed entry leaves no trace in the
output. -/
theorem listPasswords_skips_failures (es : EncryptedStorage) (now : Int)
    (h : es.initialized = true) :
    ∃ ms, es.ListPasswords now = .ok ms ∧
      ∀ m ∈ ms, ∃ name stored,
        findFile es.files (fileNameFor name) = some (.plain stored) ∧
        m = metadataAtRead (toEntry stored) now := by
  unfold EncryptedStorage.ListPasswords
  simp only [h, Bool.true_eq_false, if_false]
  refine ⟨(readDirSorted es.files).filterMap (processFile es now), ?_, ?_⟩
  · rw [foldl_appendIfSome]
    simp
  · intro m hm
    obtain ⟨file, hfile, hproc⟩ := List.mem_filterMap.mp hm
    obtain ⟨stem, pe, hstem, hload, hm⟩ := processFile_some_inv es now file m hproc
    obtain ⟨stored, hfind, hpe⟩ := loadPassword_ok_inv es (unsanitizeFileName stem) pe hload
    exact ⟨unsanitizeFileName stem, stored, hfind, by rw [hm, hpe]⟩

def esW6 : EncryptedStorage :=
  ⟨[("bad2.gpg", .undecryptable), ("good.gpg", .plain (toStored goodEntryC6))], [], [], true⟩

theorem listPasswords_skips_failures_witness :
    esW6.initialized = true ∧
    (∃ ms, esW6.ListPasswords 7 = .ok ms ∧
      ∀ m ∈ ms, ∃ name stored,
        findFile esW6.files (fileNameFor name) = some (.plain stored) ∧
        m = metadataAtRead (toEntry stored) 7) :=
  ⟨rfl, listPasswords_skips_failures esW6 7 rfl⟩

/-! ## C5: listing order -/

theorem lexLe_trans : ∀ a b c : List Char,
    lexLe a b = true → lexLe b c = true → lexLe a c = true
  | [], _, _, _, _ => by simp [lexLe]
  | _ :: _, [], _, h1, _ => by simp [lexLe] at h1
  | _ :: _, _ :: _, [], _, h2 => by simp [lexLe] at h2
  | x :: xs, y :: ys, z :: zs, h1, h2 => by
    simp only [lexLe] at h1 h2 ⊢
    by_cases hxy : x = y
    · subst hxy
      by_cases hxz : x = z
      · subst hxz
        simp only [if_pos rfl] at h1 h2 ⊢
        exact lexLe_trans xs ys zs h1 h2
      · simpa [hxz] using h2
    · by_cases hyz : y = z
      · subst hyz
        simpa [hxy] using h1
      · simp only [if_neg hxy, decide_eq_true_eq] at h1
        simp only [if_neg hyz, decide_eq_true_eq] at h2
        have hxz : x < z := lt_trans h1 h2
        simp [ne_of_lt hxz, hxz]

theorem lexLe_total : ∀ a b : List Char, lexLe a b = true ∨ lexLe b a = true
  | [], _ => by simp [lexLe]
  | _ :: _, [] => by simp [lexLe]
  | x :: xs, y :: ys => by
    simp only [lexLe]
    by_cases hxy : x = y
    · subst hxy
      simpa using lexLe_total xs ys
    · have hyx : ¬y = x := fun h => hxy h.symm
      rcases lt_or_gt_of_ne hxy with hlt | hgt
      · left
        simp [hxy, hlt]
      · right
        simp [hyx, hgt]

theorem lexLe_antisymm : ∀ a b : List Char,
    lexLe a b = true → lexLe b a = true → a = b
  | [], [], _, _ => rfl
  | [], _ :: _, _, h2 => by simp [lexLe] at h2
  | _ :: _, [], h1, _ => by simp [lexLe] at h1
  | x :: xs, y :: ys, h1, h2 => by
    simp only [lexLe] at h1 h2
    by_cases hxy : x = y
    · subst hxy
      simp only [if_pos rfl] at h1 h2
      rw [lexLe_antisymm xs ys h1 h2]
    · have hyx : ¬y = x := fun h => hxy h.symm
      simp only [if_neg hxy, decide_eq_true_eq] at h1
      simp only [if_neg hyx, decide_eq_true_eq] at h2
      exact absurd h2 (lt_asymm h1)

instance : IsTrans (String × FileContent) fileLe :=
  ⟨fun a b c h1 h2 => lexLe_trans a.1.data b.1.data c.1.data h1 h2⟩

instance : IsTotal (String × FileContent) fileLe :=
  ⟨fun a b => lexLe_total a.1.data b.1.data⟩

/-- The key order on plain strings induced by `lexLe`. -/
def strLe (a b : String) : Prop := lexLe a.data b.data = true

instance (a b : String) : Decidable (strLe a b) := by
  unfold strLe
  infer_instance

instance : IsTrans String strLe := ⟨fun a b c h1 h2 => lexLe_trans a.data b.data c.data h1 h2⟩

instance : IsTotal String strLe := ⟨fun a b => lexLe_total a.data b.data⟩

instance : IsAntisymm String strLe :=
  ⟨fun a b h1 h2 => by
    obtain ⟨da⟩ := a
    obtain ⟨db⟩ := b
    exact congrArg String.mk (lexLe_antisymm da db h1 h2)⟩

theorem findFile_perm (l₁ l₂ : List (String × FileContent)) (p : l₁.Perm l₂)
    (hnd : (l₁.map Prod.fst).Nodup) (n : String) :
    findFile l₁ n = findFile l₂ n := by
  induction p with
  | nil => rfl
  | cons x p ih =>
    obtain ⟨m, c⟩ := x
    simp only [List.map_cons, List.nodup_cons] at hnd
    by_cases hmn : m = n
    · simp [findFile, hmn]
    · simp [findFile, hmn, ih hnd.2]
  | swap x y l =>
    obtain ⟨mx, cx⟩ := x
    obtain ⟨my, cy⟩ := y
    simp only [List.map_cons, List.nodup_cons, List.mem_cons] at hnd
    have hxy : ¬my = mx := fun h => hnd.1 (Or.inl h)
    have hyx : ¬mx = my := fun h => hxy h.symm
    by_cases hyn : my = n
    · subst hyn
      simp [findFile, hyx]
    · by_cases hxn : mx = n
      · subst hxn
        simp [findFile, hxy, hyn]
      · simp [findFile, hxn, hyn]
  | trans p1 p2 ih1 ih2 =>
    have hnd2 := (p1.map Prod.fst).nodup hnd
    rw [ih1 hnd, ih2 hnd2]

theorem eq_of_perm_of_map_fst_eq :
    ∀ (l₁ l₂ : List (String × FileContent)), l₁.Perm l₂ →
      l₁.map Prod.fst = l₂.map Prod.fst → (l₁.map Prod.fst).Nodup → l₁ = l₂
  | [], l₂, p, _, _ => (p.nil_eq).symm ▸ rfl
  | a :: t₁, [], p, _, _ => absurd p.symm (by simp)
  | a :: t₁, b :: t₂, p, hmap, hnd => by
    simp only [List.map_cons, List.cons.injEq] at hmap
    simp only [List.map_cons, List.nodup_cons] at hnd
    have hab : a = b := by
      have hmem : a ∈ b :: t₂ := p.mem_iff.mp (List.mem_cons_self a t₁)
      rcases List.mem_cons.mp hmem with h | h
      · exact h
      · exfalso
        have : a.1 ∈ t₂.map Prod.fst := List.mem_map_of_mem Prod.fst h
        rw [← hmap.2] at this
        exact hnd.1 this
    subst hab
    have ht : t₁ = t₂ :=
      eq_of_perm_of_map_fst_eq t₁ t₂ p.cons_inv hmap.2 hnd.2
    rw [ht]

theorem readDirSorted_perm_eq (l₁ l₂ : List (String × FileContent)) (p : l₁.Perm l₂)
    (hnd : (l₁.map Prod.fst).Nodup) :
    readDirSorted l₁ = readDirSorted l₂ := by
  have ps₁ : (readDirSorted l₁).Perm l₁ := List.perm_insertionSort fileLe l₁
  have ps₂ : (readDirSorted l₂).Perm l₂ := List.perm_insertionSort fileLe l₂
  have hp : (readDirSorted l₁).Perm (readDirSorted l₂) :=
    (ps₁.trans p).trans ps₂.symm
  have hs₁ : List.Sorted fileLe (readDirSorted l₁) := List.sorted_insertionSort fileLe l₁
  have hs₂ : List.Sorted fileLe (readDirSorted l₂) := List.sorted_insertionSort fileLe l₂
  have hk₁ : List.Sorted strLe ((readDirSorted l₁).map Prod.fst) :=
    List.Pairwise.map Prod.fst (fun _ _ h => h) hs₁
  have hk₂ : List.Sorted strLe ((readDirSorted l₂).map Prod.fst) :=
    List.Pairwise.map Prod.fst (fun _ _ h => h) hs₂
  have hkeq : (readDirSorted l₁).map Prod.fst = (readDirSorted l₂).map Prod.fst :=
    List.eq_of_perm_of_sorted (hp.map Prod.fst) hk₁ hk₂
  have hnd₁ : ((readDirSorted l₁).map Prod.fst).Nodup :=
    ((ps₁.map Prod.fst).symm).nodup hnd
  exact eq_of_perm_of_map_fst_eq _ _ hp hkeq hnd₁

theorem processFile_perm (es es' : EncryptedStorage) (now : Int)
    (h : es.initialized = true) (h' : es'.initialized = true)
    (hp : es'.files.Perm es.files) (hnd : (es'.files.map Prod.fst).Nodup)
    (file : String × FileContent) :
    processFile es' now file = processFile es now file := by
  unfold processFile
  cases stripGpgSuffix file.1 with
  | none => rfl
  | some stem =>
    dsimp only
    unfold EncryptedStorage.LoadPassword
    simp only [h, h']
    rw [findFile_perm es'.files es.files hp hnd]

def e1C5 : PasswordEntry :=
  { service := "aZc", username := "u1", password := "p1", url := "", notes := "",
    metadata := [], createdAt := 0, updatedAt := 0, generatedBy := "",
    autoRotation := none, rotationHistory := [] }

def e2C5 : PasswordEntry :=
  { service := "a c", username := "u2", password := "p2", url := "", notes := "",
    metadata := [], createdAt := 0, updatedAt := 0, generatedBy := "",
    autoRotation := none, rotationHistory := [] }

def esC5 : EncryptedStorage :=
  ⟨[("aZc.gpg", .plain (toStored e1C5)), ("a_c.gpg", .plain (toStored e2C5))], [], [], true⟩

def m1C5 : PasswordMetadata := metadataAtRead e1C5 0

def m2C5 : PasswordMetadata := metadataAtRead e2C5 0

/-- C5 counterexample.  An initialized store holding the services `aZc`
(filename `aZc.gpg`) and `a c` (filename `a_c.gpg`): `ListPasswords` returns
`aZc` before `a c` (the filename order), yet `a c` strictly precedes `aZc` in
service-name order, so the listing is not sorted by service name. -/
theorem listPasswords_not_sorted_by_service :
    esC5.ListPasswords 0 = .ok [m1C5, m2C5] ∧
    m1C5.service = "aZc" ∧ m2C5.service = "a c" ∧
    strLe m2C5.service m1C5.service ∧ m2C5.service ≠ m1C5.service :=
  ⟨rfl, by decide, by decide, by decide, by decide⟩

/-- C5 amended.  For every initialized store whose filenames are distinct,
`ListPasswords` walks the directory in ascending filename order — the sorted
directory listing the result list follows — and its output does not depend on
the order in which the directory stores its entries (any permutation of the
file list yields the identical result); by the counterexample this filename
order is not, in general, service-name order. -/
theorem listPasswords_filename_order (es : EncryptedStorage) (now : Int)
    (h : es.initialized = true) (hnd : (es.files.map Prod.fst).Nodup) :
    List.Sorted fileLe (readDirSorted es.files) ∧
    es.ListPasswords now =
      .ok ((readDirSorted es.files).filterMap (processFile es now)) ∧
    ∀ es' : EncryptedStorage, es'.initialized = true → es'.files.Perm es.files →
      es'.ListPasswords now = es.ListPasswords now := by
  refine ⟨List.sorted_insertionSort fileLe es.files, ?_, ?_⟩
  · unfold EncryptedStorage.ListPasswords
    simp only [h, Bool.true_eq_false, if_false]
    rw [foldl_appendIfSome]
    simp
  · intro es' h' hp
    have hnd' : (es'.files.map Prod.fst).Nodup := ((hp.map Prod.fst).symm).nodup hnd
    unfold EncryptedStorage.ListPasswords
    simp only [h, h', Bool.true_eq_false, if_false]
    rw [foldl_appendIfSome, foldl_appendIfSome]
    rw [readDirSorted_perm_eq es'.files es.files hp hnd']
    congr 1
    apply List.filterMap_congr
    intro file hfile
    exact processFile_perm es es' now h h' hp hnd' file

def esW5 : EncryptedStorage :=
  ⟨[("beta.gpg", .plain (toStored e1C5)), ("alpha.gpg", .plain (toStored e2C5))], [], [], true⟩

theorem listPasswords_filename_order_witness :
    (esW5.initialized = true ∧ (esW5.files.map Prod.fst).Nodup) ∧
    (List.Sorted fileLe (readDirSorted esW5.files) ∧
      esW5.ListPasswords 3 =
        .ok ((readDirSorted esW5.files).filterMap (processFile esW5 3)) ∧
      ∀ es' : EncryptedStorage, es'.initialized = true → es'.files.Perm esW5.files →
        es'.ListPasswords 3 = esW5.ListPasswords 3) :=
  ⟨⟨rfl, by decide⟩, listPasswords_filename_order esW5 3 rfl (by decide)⟩

end Passgen
